import Mathlib

/-!
Verification of the argument classifier in `src/lib.rs` (crate `argparser`).

Embedding conventions:
* A Rust `String` is modelled as its sequence of Unicode scalar values,
  `RStr := List Char`.  Rust's `str::len` is the UTF-8 byte count, modelled
  by `utf8Len` (the sum of `Char.utf8Size` over the characters).
* `arg.starts_with("-")` / `arg.starts_with("--")` are byte-prefix tests.
  Since `-` is a one-byte ASCII character, the first byte of a string is a
  `-` byte exactly when its first character is `-` (a multi-byte character
  begins with a byte ≥ 0x80); so the byte-prefix tests coincide with the
  character-prefix tests `startsWithDash` / `startsWithDashDash`.
* `&arg[1..]` and `&arg[2..]` are byte slices; they are taken only after the
  corresponding dash-prefix test succeeded, so they drop one or two one-byte
  characters and are modelled by `List.drop 1` / `List.drop 2`.  The checked
  variant `byteDrop` below models the slicing faithfully at the byte level
  (returning `none` where Rust would panic) and is proved to always succeed
  where `parse_args` uses it.
* The accumulating `Vec::push` calls are modelled by appending at the right
  end of a `List`.
-/

set_option autoImplicit false

namespace Argparser

/-- A Rust `String`, as its sequence of characters (Unicode scalar values). -/
abbrev RStr := List Char

/-- Rust `str::len`: the length in UTF-8 bytes. -/
def utf8Len (s : RStr) : Nat := (s.map Char.utf8Size).sum

/-- The literal token `--` (the path divider). -/
def dashdash : RStr := ['-', '-']

/-- Rust `arg.starts_with("-")` (see the convention note above). -/
def startsWithDash : RStr → Bool
  | [] => false
  | c :: _ => c == '-'

/-- Rust `arg.starts_with("--")` (see the convention note above). -/
def startsWithDashDash : RStr → Bool
  | c1 :: c2 :: _ => c1 == '-' && c2 == '-'
  | _ => false

/-- The result record of `parse_args` (struct `ArgumentConfig` in `lib.rs`). -/
structure ArgumentConfig where
  executable : RStr
  commands : List RStr
  flags : List RStr
  paths : List RStr
deriving DecidableEq

/-- The mutable state of the loop in `parse_args`: the `path_divider`
boolean together with the three accumulating vectors borrowed from `self`. -/
structure ParseState where
  pathDivider : Bool
  commands : List RStr
  flags : List RStr
  paths : List RStr
deriving DecidableEq

/-- One iteration of the loop body of `parse_args` (`lib.rs` lines 84-114)
applied to the current token `arg`:

* `if arg.eq(&"--") { path_divider = true; continue; }`
* `if path_divider { paths.push(arg); continue; }`
* `if arg.starts_with("--") { flags.push(&arg[2..]); continue; }`
* `if arg.starts_with("-") { if arg.len() > 2 { expand chars } else { flags.push(&arg[1..]) }; continue; }`
* `commands.push(arg)` otherwise. -/
def processArg (st : ParseState) (arg : RStr) : ParseState :=
  if arg = dashdash then
    { st with pathDivider := true }
  else if st.pathDivider then
    { st with paths := st.paths ++ [arg] }
  else if startsWithDashDash arg then
    { st with flags := st.flags ++ [arg.drop 2] }
  else if startsWithDash arg then
    if utf8Len arg > 2 then
      { st with flags := st.flags ++ (arg.drop 1).map (fun c => [c]) }
    else
      { st with flags := st.flags ++ [arg.drop 1] }
  else
    { st with commands := st.commands ++ [arg] }

/-- The initial loop state: `path_divider = false`, all vectors empty. -/
def initState : ParseState := ⟨false, [], [], []⟩

/-- `ArgumentConfig::parse_args` (`lib.rs` lines 66-116): the first token
becomes `executable` (empty string when there is none), the remaining tokens
are classified by the loop. -/
def parse_args (args : List RStr) : ArgumentConfig :=
  match args with
  | [] => ⟨[], [], [], []⟩
  | first :: rest =>
    let st := rest.foldl processArg initState
    ⟨first, st.commands, st.flags, st.paths⟩

/-- Keep a token: it is not the literal `--`. -/
def notDivider (t : RStr) : Bool := decide (t ≠ dashdash)

/-! ### Helper lemmas about single loop iterations -/

theorem processArg_divider (st : ParseState) :
    processArg st dashdash = { st with pathDivider := true } := by
  simp [processArg]

theorem processArg_after_divider (st : ParseState) (arg : RStr)
    (hd : st.pathDivider = true) (ha : arg ≠ dashdash) :
    processArg st arg = { st with paths := st.paths ++ [arg] } := by
  simp [processArg, ha, hd]

/-- Every character occupies at least one UTF-8 byte, so the byte length of a
string dominates its character count. -/
theorem length_le_utf8Len (s : RStr) : s.length ≤ utf8Len s := by
  induction s with
  | nil => simp [utf8Len]
  | cons c s ih =>
    have hc : 1 ≤ c.utf8Size := Char.utf8Size_pos c
    simp only [utf8Len, List.map_cons, List.sum_cons, List.length_cons] at *
    omega

theorem utf8Len_nil : utf8Len [] = 0 := rfl

/-- Once `path_divider` is set, the rest of the loop only consumes literal
`--` tokens and appends every other token, verbatim and in order, to
`paths`; `commands` and `flags` are no longer touched. -/
theorem foldl_after_divider (l : List RStr) (st : ParseState)
    (hd : st.pathDivider = true) :
    l.foldl processArg st =
      { pathDivider := true
        commands := st.commands
        flags := st.flags
        paths := st.paths ++ l.filter notDivider } := by
  induction l generalizing st with
  | nil =>
    cases st with
    | mk d c f p => simp at hd; simp [hd]
  | cons a l ih =>
    by_cases ha : a = dashdash
    · subst ha
      rw [List.foldl_cons, processArg_divider,
        ih { st with pathDivider := true } rfl]
      simp [notDivider]
    · rw [List.foldl_cons, processArg_after_divider st a hd ha,
        ih { st with paths := st.paths ++ [a] } hd]
      simp [notDivider, ha]

/-- Before the divider has been seen, processing a token that is not the
literal `--` leaves `path_divider` unset and `paths` untouched. -/
theorem processArg_no_divider (st : ParseState) (arg : RStr)
    (hd : st.pathDivider = false) (ha : arg ≠ dashdash) :
    (processArg st arg).pathDivider = false ∧
    (processArg st arg).paths = st.paths := by
  unfold processArg
  rw [if_neg ha, if_neg (by simp [hd])]
  split
  · simp [hd]
  · split
    · split <;> simp [hd]
    · simp [hd]

/-- As long as no literal `--` token has been processed, `path_divider`
stays unset and `paths` stays empty. -/
theorem foldl_no_divider (l : List RStr) (st : ParseState)
    (hd : st.pathDivider = false) (hl : dashdash ∉ l) :
    (l.foldl processArg st).pathDivider = false ∧
    (l.foldl processArg st).paths = st.paths := by
  induction l generalizing st with
  | nil => exact ⟨hd, rfl⟩
  | cons a l ih =>
    have ha : a ≠ dashdash := fun h => hl (h ▸ List.mem_cons_self a l)
    have hstep := processArg_no_divider st a hd ha
    rw [List.foldl_cons]
    have := ih (processArg st a) hstep.1 (fun h => hl (List.mem_cons_of_mem a h))
    exact ⟨this.1, by rw [this.2, hstep.2]⟩

theorem startsWithDash_dashdash : startsWithDash dashdash = true := rfl

theorem startsWithDashDash_dashdash : startsWithDashDash dashdash = true := rfl

theorem startsWithDash_of_double (s : RStr) (h : startsWithDashDash s = true) :
    startsWithDash s = true := by
  match s with
  | [] => exact absurd h (by simp [startsWithDashDash])
  | [c] => exact absurd h (by simp [startsWithDashDash])
  | c1 :: c2 :: rest =>
    simp [startsWithDashDash] at h
    simp [startsWithDash, h.1]

theorem ne_dashdash_of_single (s : RStr) (h : startsWithDashDash s = false) :
    s ≠ dashdash := by
  intro he
  rw [he, startsWithDashDash_dashdash] at h
  cases h

theorem processArg_long_flag (st : ParseState) (arg : RStr)
    (hd : st.pathDivider = false) (h2 : startsWithDashDash arg = true)
    (ha : arg ≠ dashdash) :
    processArg st arg = { st with flags := st.flags ++ [arg.drop 2] } := by
  unfold processArg
  rw [if_neg ha, if_neg (by simp [hd]), if_pos h2]

theorem processArg_short_grouped (st : ParseState) (arg : RStr)
    (hd : st.pathDivider = false) (h1 : startsWithDash arg = true)
    (h2 : startsWithDashDash arg = false) (hlen : 2 < utf8Len arg) :
    processArg st arg =
      { st with flags := st.flags ++ (arg.drop 1).map (fun c => [c]) } := by
  unfold processArg
  rw [if_neg (ne_dashdash_of_single arg h2), if_neg (by simp [hd]),
    if_neg (by simp [h2]), if_pos h1, if_pos hlen]

theorem processArg_short_single (st : ParseState) (arg : RStr)
    (hd : st.pathDivider = false) (h1 : startsWithDash arg = true)
    (h2 : startsWithDashDash arg = false) (hlen : ¬ 2 < utf8Len arg) :
    processArg st arg = { st with flags := st.flags ++ [arg.drop 1] } := by
  unfold processArg
  rw [if_neg (ne_dashdash_of_single arg h2), if_neg (by simp [hd]),
    if_neg (by simp [h2]), if_pos h1, if_neg hlen]

theorem processArg_command (st : ParseState) (arg : RStr)
    (hd : st.pathDivider = false) (h1 : startsWithDash arg = false) :
    processArg st arg = { st with commands := st.commands ++ [arg] } := by
  have h2 : startsWithDashDash arg = false := by
    cases hc : startsWithDashDash arg
    · rfl
    · rw [startsWithDash_of_double arg hc] at h1; cases h1
  unfold processArg
  rw [if_neg (ne_dashdash_of_single arg h2), if_neg (by simp [hd]),
    if_neg (by simp [h2]), if_neg (by simp [h1])]

/-- A token that begins with a dash but whose byte length exceeds 2 has at
least one character after the dash. -/
theorem drop_one_ne_nil (t : RStr) (h1 : startsWithDash t = true)
    (hlen : 2 < utf8Len t) : t.drop 1 ≠ [] := by
  match t with
  | [] => exact absurd h1 (by simp [startsWithDash])
  | c :: rest =>
    simp only [startsWithDash, beq_iff_eq] at h1
    subst h1
    cases rest with
    | nil => exact absurd hlen (by decide)
    | cons d rest => simp

/-! ### Checked embedding of the byte slicing (`&arg[1..]`, `&arg[2..]`)

Rust's `&s[i..]` panics when `i` is not a character boundary of `s` or when
`i` exceeds the byte length.  `byteDrop i s` returns `none` exactly in those
cases, and otherwise the characters after the first `i` bytes. -/

def byteDrop : Nat → RStr → Option RStr
  | 0, s => some s
  | _ + 1, [] => none
  | n + 1, c :: rest =>
    if n + 1 < c.utf8Size then none
    else byteDrop (n + 1 - c.utf8Size) rest

theorem utf8Size_dash : Char.utf8Size '-' = 1 := rfl

theorem byteDrop_one_dash (rest : RStr) : byteDrop 1 ('-' :: rest) = some rest := by
  simp [byteDrop, utf8Size_dash]

theorem byteDrop_two_dashdash (rest : RStr) :
    byteDrop 2 ('-' :: '-' :: rest) = some rest := by
  simp [byteDrop, utf8Size_dash]

/-- The loop body again, but with every byte slice modelled by the checked
`byteDrop`: a `none` result marks an input on which the Rust code would
panic. -/
def processArgChecked (st : ParseState) (arg : RStr) : Option ParseState :=
  if arg = dashdash then some { st with pathDivider := true }
  else if st.pathDivider then some { st with paths := st.paths ++ [arg] }
  else if startsWithDashDash arg then
    (byteDrop 2 arg).map fun s => { st with flags := st.flags ++ [s] }
  else if startsWithDash arg then
    if utf8Len arg > 2 then
      (byteDrop 1 arg).map fun s =>
        { st with flags := st.flags ++ s.map (fun c => [c]) }
    else
      (byteDrop 1 arg).map fun s => { st with flags := st.flags ++ [s] }
  else some { st with commands := st.commands ++ [arg] }

/-- `parse_args` with checked byte slicing. -/
def parse_argsChecked (args : List RStr) : Option ArgumentConfig :=
  match args with
  | [] => some ⟨[], [], [], []⟩
  | first :: rest =>
    (rest.foldlM processArgChecked initState).map fun st =>
      ⟨first, st.commands, st.flags, st.paths⟩

theorem processArgChecked_eq (st : ParseState) (arg : RStr) :
    processArgChecked st arg = some (processArg st arg) := by
  by_cases h0 : arg = dashdash
  · rw [h0, processArg_divider]; rfl
  by_cases hd : st.pathDivider = true
  · rw [processArg_after_divider st arg hd h0]
    unfold processArgChecked
    rw [if_neg h0, if_pos hd]
  have hd' : st.pathDivider = false := by simpa using hd
  by_cases h2 : startsWithDashDash arg = true
  · rw [processArg_long_flag st arg hd' h2 h0]
    unfold processArgChecked
    rw [if_neg h0, if_neg hd, if_pos h2]
    match arg, h2 with
    | c1 :: c2 :: rest, h2 =>
      simp only [startsWithDashDash, Bool.and_eq_true, beq_iff_eq] at h2
      rw [h2.1, h2.2, byteDrop_two_dashdash]
      rfl
  have h2' : startsWithDashDash arg = false := by simpa using h2
  by_cases h1 : startsWithDash arg = true
  · have harg : ∃ rest, arg = '-' :: rest := by
      match arg, h1 with
      | c :: rest, h1 =>
        simp only [startsWithDash, beq_iff_eq] at h1
        exact ⟨rest, by rw [h1]⟩
    obtain ⟨rest, hrest⟩ := harg
    by_cases hlen : utf8Len arg > 2
    · rw [processArg_short_grouped st arg hd' h1 h2' hlen]
      unfold processArgChecked
      rw [if_neg h0, if_neg hd, if_neg h2, if_pos h1, if_pos hlen, hrest,
        byteDrop_one_dash]
      rfl
    · rw [processArg_short_single st arg hd' h1 h2' hlen]
      unfold processArgChecked
      rw [if_neg h0, if_neg hd, if_neg h2, if_pos h1, if_neg hlen, hrest,
        byteDrop_one_dash]
      rfl
  · have h1' : startsWithDash arg = false := by simpa using h1
    rw [processArg_command st arg hd' h1']
    unfold processArgChecked
    rw [if_neg h0, if_neg hd, if_neg h2, if_neg h1]

theorem foldlM_checked (l : List RStr) (st : ParseState) :
    l.foldlM processArgChecked st = some (l.foldl processArg st) := by
  induction l generalizing st with
  | nil => rfl
  | cons a l ih =>
    rw [List.foldlM_cons, processArgChecked_eq, List.foldl_cons]
    exact ih (processArg st a)

/-! ### The loop with the borrowed vector made explicit

In the source, `parse_args` receives `args: &mut Vec<String>` and walks it
through `args.iter()`.  `parseIter` carries the referenced vector alongside
the iterator's remaining suffix and returns the vector's final contents, so
that the absence of writes to it becomes a provable statement. -/

def parseIter (vec : List RStr) : List RStr → ParseState → List RStr × ParseState
  | [], st => (vec, st)
  | arg :: rest, st => parseIter vec rest (processArg st arg)

/-- `parse_args`, returning both the `ArgumentConfig` fields it fills in and
the final contents of the vector behind the `&mut Vec<String>` argument. -/
def parse_args_ref (args : List RStr) : ArgumentConfig × List RStr :=
  match args with
  | [] => (⟨[], [], [], []⟩, (parseIter args [] initState).1)
  | first :: rest =>
    let (vec, st) := parseIter args rest initState
    (⟨first, st.commands, st.flags, st.paths⟩, vec)

theorem parseIter_eq (vec : List RStr) (l : List RStr) (st : ParseState) :
    parseIter vec l st = (vec, l.foldl processArg st) := by
  induction l generalizing st with
  | nil => rfl
  | cons a l ih => rw [parseIter, List.foldl_cons]; exact ih (processArg st a)

/-- One loop iteration never pushes the literal `--` onto `commands` or
`paths`: the equality test on line 84 precedes both pushes. -/
theorem processArg_no_dashdash (st : ParseState) (a : RStr)
    (hc : dashdash ∉ st.commands) (hp : dashdash ∉ st.paths) :
    dashdash ∉ (processArg st a).commands ∧
    dashdash ∉ (processArg st a).paths := by
  by_cases h0 : a = dashdash
  · rw [h0, processArg_divider]; exact ⟨hc, hp⟩
  by_cases hd : st.pathDivider = true
  · rw [processArg_after_divider st a hd h0]
    refine ⟨hc, ?_⟩
    intro hmem
    rcases List.mem_append.mp hmem with h | h
    · exact hp h
    · rw [List.mem_singleton] at h
      exact h0 h.symm
  have hd' : st.pathDivider = false := by simpa using hd
  by_cases h2 : startsWithDashDash a = true
  · rw [processArg_long_flag st a hd' h2 h0]; exact ⟨hc, hp⟩
  have h2' : startsWithDashDash a = false := by simpa using h2
  by_cases h1 : startsWithDash a = true
  · by_cases hlen : utf8Len a > 2
    · rw [processArg_short_grouped st a hd' h1 h2' hlen]; exact ⟨hc, hp⟩
    · rw [processArg_short_single st a hd' h1 h2' hlen]; exact ⟨hc, hp⟩
  · have h1' : startsWithDash a = false := by simpa using h1
    rw [processArg_command st a hd' h1']
    refine ⟨?_, hp⟩
    intro hmem
    rcases List.mem_append.mp hmem with h | h
    · exact hc h
    · rw [List.mem_singleton] at h
      subst h
      exact absurd h1' (by decide)

theorem foldl_no_dashdash (l : List RStr) (st : ParseState)
    (hc : dashdash ∉ st.commands) (hp : dashdash ∉ st.paths) :
    dashdash ∉ (l.foldl processArg st).commands ∧
    dashdash ∉ (l.foldl processArg st).paths := by
  induction l generalizing st with
  | nil => exact ⟨hc, hp⟩
  | cons a l ih =>
    rw [List.foldl_cons]
    have hstep := processArg_no_dashdash st a hc hp
    exact ih (processArg st a) hstep.1 hstep.2

/-! ### The claims -/

/-- Claim C1, counterexample: on input `["./b", "--", "--", "a"]` the paths
list is NOT `["--", "a"]` — the second literal `--` is consumed by the
equality test on line 84 (which precedes the divider-seen check), so the
code yields `paths = ["a"]`, contradicting the claimed example. -/
theorem c1_counterexample :
    ¬ ((parse_args [['.', '/', 'b'], dashdash, dashdash, ['a']]).paths
        = [dashdash, ['a']]) := by decide

/-- Claim C1, amended: every token after the first `--` divider that is not
itself the literal `--` is appended to `paths` verbatim and in encounter
order, and appears in neither `commands` nor `flags`; tokens equal to `--`
after the divider are consumed (they merely re-set the divider flag), so
input `["./b", "--", "--", "a"]` yields `paths = ["a"]`. -/
theorem c1_paths_after_divider (first : RStr) (pre suf : List RStr)
    (h : dashdash ∉ pre) :
    (parse_args (first :: (pre ++ dashdash :: suf))).paths
      = suf.filter notDivider ∧
    (parse_args (first :: (pre ++ dashdash :: suf))).commands
      = (parse_args (first :: pre)).commands ∧
    (parse_args (first :: (pre ++ dashdash :: suf))).flags
      = (parse_args (first :: pre)).flags ∧
    (parse_args [['.', '/', 'b'], dashdash, dashdash, ['a']]).paths
      = [['a']] := by
  have hnd := foldl_no_divider pre initState rfl h
  have key : (pre ++ dashdash :: suf).foldl processArg initState =
      { pathDivider := true
        commands := (pre.foldl processArg initState).commands
        flags := (pre.foldl processArg initState).flags
        paths := (pre.foldl processArg initState).paths
          ++ suf.filter notDivider } := by
    rw [List.foldl_append, List.foldl_cons, processArg_divider,
      foldl_after_divider suf _ rfl]
  have hcfg : parse_args (first :: (pre ++ dashdash :: suf)) =
      ⟨first, (pre.foldl processArg initState).commands,
        (pre.foldl processArg initState).flags,
        (pre.foldl processArg initState).paths ++ suf.filter notDivider⟩ := by
    show (⟨first, ((pre ++ dashdash :: suf).foldl processArg initState).commands,
      ((pre ++ dashdash :: suf).foldl processArg initState).flags,
      ((pre ++ dashdash :: suf).foldl processArg initState).paths⟩ : ArgumentConfig) = _
    rw [key]
  have hpre : parse_args (first :: pre) =
      ⟨first, (pre.foldl processArg initState).commands,
        (pre.foldl processArg initState).flags,
        (pre.foldl processArg initState).paths⟩ := rfl
  refine ⟨?_, ?_, ?_, by decide⟩
  · rw [hcfg]
    show (pre.foldl processArg initState).paths ++ suf.filter notDivider
      = suf.filter notDivider
    rw [hnd.2]
    rfl
  · rw [hcfg, hpre]
  · rw [hcfg, hpre]

/-- Claim C1 witness: instantiation at `first = "x"`, `pre = []`,
`suf = ["a"]`. -/
theorem c1_witness :
    dashdash ∉ ([] : List RStr) ∧
    ((parse_args (['x'] :: ([] ++ dashdash :: [['a']]))).paths
        = [['a']].filter notDivider ∧
     (parse_args (['x'] :: ([] ++ dashdash :: [['a']]))).commands
        = (parse_args (['x'] :: [])).commands ∧
     (parse_args (['x'] :: ([] ++ dashdash :: [['a']]))).flags
        = (parse_args (['x'] :: [])).flags ∧
     (parse_args [['.', '/', 'b'], dashdash, dashdash, ['a']]).paths
        = [['a']]) :=
  ⟨by decide, c1_paths_after_divider ['x'] [] [['a']] (by decide)⟩

/-- Claim C2: each loop iteration classifies its token into exactly one of
the three output lists — commands get the token verbatim, paths get the
token verbatim, flags strictly grow — and the other two lists are left
unchanged; the sole exception is a token equal to the literal `--`, which
is consumed and extends no list. -/
theorem c2_exclusive_classification (st : ParseState) (arg : RStr) :
    (arg = dashdash →
      (processArg st arg).commands = st.commands ∧
      (processArg st arg).flags = st.flags ∧
      (processArg st arg).paths = st.paths) ∧
    (arg ≠ dashdash →
      ((processArg st arg).commands = st.commands ++ [arg] ∧
        (processArg st arg).flags = st.flags ∧
        (processArg st arg).paths = st.paths) ∨
      ((processArg st arg).commands = st.commands ∧
        st.flags.length < (processArg st arg).flags.length ∧
        (processArg st arg).paths = st.paths) ∨
      ((processArg st arg).commands = st.commands ∧
        (processArg st arg).flags = st.flags ∧
        (processArg st arg).paths = st.paths ++ [arg])) := by
  constructor
  · intro h0
    rw [h0, processArg_divider]
    exact ⟨rfl, rfl, rfl⟩
  · intro h0
    by_cases hd : st.pathDivider = true
    · refine Or.inr (Or.inr ?_)
      rw [processArg_after_divider st arg hd h0]
      exact ⟨rfl, rfl, rfl⟩
    have hd' : st.pathDivider = false := by simpa using hd
    by_cases h2 : startsWithDashDash arg = true
    · refine Or.inr (Or.inl ?_)
      rw [processArg_long_flag st arg hd' h2 h0]
      exact ⟨rfl, by simp, rfl⟩
    have h2' : startsWithDashDash arg = false := by simpa using h2
    by_cases h1 : startsWithDash arg = true
    · refine Or.inr (Or.inl ?_)
      by_cases hlen : utf8Len arg > 2
      · rw [processArg_short_grouped st arg hd' h1 h2' hlen]
        refine ⟨rfl, ?_, rfl⟩
        have hne : 0 < (arg.drop 1).length :=
          List.length_pos.mpr (drop_one_ne_nil arg h1 hlen)
        simp only [List.length_append, List.length_map]
        omega
      · rw [processArg_short_single st arg hd' h1 h2' hlen]
        exact ⟨rfl, by simp, rfl⟩
    · have h1' : startsWithDash arg = false := by simpa using h1
      refine Or.inl ?_
      rw [processArg_command st arg hd' h1']
      exact ⟨rfl, rfl, rfl⟩

/-- Claim C2 witness: the token `"a"` (not `--`) from the initial state is
classified into exactly one list, namely `commands`. -/
theorem c2_witness :
    (['a'] : RStr) ≠ dashdash ∧
    (((processArg initState ['a']).commands = initState.commands ++ [['a']] ∧
      (processArg initState ['a']).flags = initState.flags ∧
      (processArg initState ['a']).paths = initState.paths) ∨
     ((processArg initState ['a']).commands = initState.commands ∧
      initState.flags.length < (processArg initState ['a']).flags.length ∧
      (processArg initState ['a']).paths = initState.paths) ∨
     ((processArg initState ['a']).commands = initState.commands ∧
      (processArg initState ['a']).flags = initState.flags ∧
      (processArg initState ['a']).paths = initState.paths ++ [['a']])) :=
  ⟨by decide, (c2_exclusive_classification initState ['a']).2 (by decide)⟩

/-- Claim C3, counterexample: the output CAN contain the literal string
`--`: the token `----` starts with `--` and is not equal to `--`, so line
97 pushes `&"----"[2..] = "--"` onto `flags`. -/
theorem c3_counterexample :
    dashdash ∈ (parse_args [['x'], ['-', '-', '-', '-']]).flags := by decide

/-- Claim C3, amended: `commands` and `paths` never contain the literal
`--`, and every input token equal to exactly `--` — before or after the
divider has been seen — is consumed, its only effect being to set the
divider flag; only `flags` can come to contain the string `--`, by
stripping a longer token such as `----`. -/
theorem c3_dashdash_consumed (args : List RStr) (st : ParseState) :
    dashdash ∉ (parse_args args).commands ∧
    dashdash ∉ (parse_args args).paths ∧
    processArg st dashdash = { st with pathDivider := true } := by
  refine ⟨?_, ?_, processArg_divider st⟩ <;>
  · cases args with
    | nil => simp [parse_args]
    | cons first rest =>
      have h := foldl_no_dashdash rest initState (by simp [initState])
        (by simp [initState])
      simp only [parse_args]
      first
      | exact h.1
      | exact h.2

/-- Claim C4: the parser is total and panic-free — with every byte slice
checked for character-boundary validity (`parse_argsChecked`), every input
sequence still produces `some` result, equal to the unchecked parse. -/
theorem c4_total_no_panic (args : List RStr) :
    parse_argsChecked args = some (parse_args args) := by
  cases args with
  | nil => rfl
  | cons first rest =>
    simp [parse_argsChecked, parse_args, foldlM_checked]

/-- Claim C5: a grouped short-flag token (single leading dash, not a `--`
long flag, more than 2 characters) processed before the divider appends one
single-character entry per character after the dash — exactly
`(token length − 1)` entries, in character order — and touches no other
list. -/
theorem c5_grouped_short_flags (st : ParseState) (t : RStr)
    (hd : st.pathDivider = false) (h1 : startsWithDash t = true)
    (h2 : startsWithDashDash t = false) (h3 : 2 < t.length) :
    (processArg st t).flags = st.flags ++ (t.drop 1).map (fun c => [c]) ∧
    (processArg st t).flags.length = st.flags.length + (t.length - 1) ∧
    (processArg st t).commands = st.commands ∧
    (processArg st t).paths = st.paths := by
  have hlen : 2 < utf8Len t := lt_of_lt_of_le h3 (length_le_utf8Len t)
  rw [processArg_short_grouped st t hd h1 h2 hlen]
  refine ⟨rfl, ?_, rfl, rfl⟩
  simp only [List.length_append, List.length_map, List.length_drop]

/-- Claim C5 witness: the token `-fx` from the initial state yields the two
flag entries `f` and `x`, in order. -/
theorem c5_witness :
    initState.pathDivider = false ∧
    startsWithDash ['-', 'f', 'x'] = true ∧
    startsWithDashDash ['-', 'f', 'x'] = false ∧
    2 < (['-', 'f', 'x'] : RStr).length ∧
    ((processArg initState ['-', 'f', 'x']).flags
        = initState.flags ++ ((['-', 'f', 'x'] : RStr).drop 1).map (fun c => [c]) ∧
     (processArg initState ['-', 'f', 'x']).flags.length
        = initState.flags.length + ((['-', 'f', 'x'] : RStr).length - 1) ∧
     (processArg initState ['-', 'f', 'x']).commands = initState.commands ∧
     (processArg initState ['-', 'f', 'x']).paths = initState.paths) :=
  ⟨rfl, rfl, rfl, by decide,
    c5_grouped_short_flags initState ['-', 'f', 'x'] rfl rfl rfl (by decide)⟩

/-- Claim C6: `executable` is always the first input token verbatim (the
empty string when the input is empty), and on inputs of at most one token
the three lists are all empty. -/
theorem c6_executable_first (first : RStr) (rest : List RStr) :
    (parse_args (first :: rest)).executable = first ∧
    parse_args [] = ⟨[], [], [], []⟩ ∧
    parse_args [first] = ⟨first, [], [], []⟩ :=
  ⟨rfl, rfl, rfl⟩

/-- Claim C7: a bare `-` token processed before the divider appends exactly
one empty-string entry to `flags`; in particular `["./b", "-"]` yields
`flags = [""]`. -/
theorem c7_bare_dash (st : ParseState) (hd : st.pathDivider = false) :
    processArg st ['-'] = { st with flags := st.flags ++ [([] : RStr)] } ∧
    (parse_args [['.', '/', 'b'], ['-']]).flags = [[]] := by
  refine ⟨?_, by decide⟩
  have h := processArg_short_single st ['-'] hd rfl rfl (by decide)
  simpa using h

/-- Claim C7 witness: instantiation at the initial state. -/
theorem c7_witness :
    initState.pathDivider = false ∧
    (processArg initState ['-']
        = { initState with flags := initState.flags ++ [([] : RStr)] } ∧
     (parse_args [['.', '/', 'b'], ['-']]).flags = [[]]) :=
  ⟨rfl, c7_bare_dash initState rfl⟩

/-- Claim C8: the classifier is deterministic — two runs on identical input
sequences produce field-for-field identical results (the embedding is a
pure function of the input list, with no other state). -/
theorem c8_deterministic (a b : List RStr) (h : a = b) :
    (parse_args a).executable = (parse_args b).executable ∧
    (parse_args a).commands = (parse_args b).commands ∧
    (parse_args a).flags = (parse_args b).flags ∧
    (parse_args a).paths = (parse_args b).paths := by
  subst h
  exact ⟨rfl, rfl, rfl, rfl⟩

/-- Claim C8 witness: two identical concrete runs. -/
theorem c8_witness :
    ([['x'], ['-', 'f']] : List RStr) = [['x'], ['-', 'f']] ∧
    ((parse_args [['x'], ['-', 'f']]).executable
        = (parse_args [['x'], ['-', 'f']]).executable ∧
     (parse_args [['x'], ['-', 'f']]).commands
        = (parse_args [['x'], ['-', 'f']]).commands ∧
     (parse_args [['x'], ['-', 'f']]).flags
        = (parse_args [['x'], ['-', 'f']]).flags ∧
     (parse_args [['x'], ['-', 'f']]).paths
        = (parse_args [['x'], ['-', 'f']]).paths) :=
  ⟨rfl, c8_deterministic [['x'], ['-', 'f']] [['x'], ['-', 'f']] rfl⟩

/-- Claim C9: the parser never modifies the argument vector it receives by
mutable reference: in the embedding that threads the referenced vector
through the loop (`parse_args_ref`), the vector's final contents equal its
initial contents on every input, and the classification agrees with
`parse_args`. -/
theorem c9_input_unmodified (args : List RStr) :
    (parse_args_ref args).2 = args ∧
    (parse_args_ref args).1 = parse_args args := by
  cases args with
  | nil => exact ⟨rfl, rfl⟩
  | cons first rest =>
    simp [parse_args_ref, parseIter_eq, parse_args]

/-- Claim C10: an empty-string token is appended verbatim to `paths` when
the divider has already been seen; it falls through to `commands` only
before the divider. -/
theorem c10_empty_token (st : ParseState) :
    (st.pathDivider = true →
      processArg st [] = { st with paths := st.paths ++ [([] : RStr)] }) ∧
    (st.pathDivider = false →
      processArg st [] = { st with commands := st.commands ++ [([] : RStr)] }) ∧
    (parse_args [['x'], dashdash, []]).paths = [[]] ∧
    (parse_args [['x'], dashdash, []]).commands = [] ∧
    (parse_args [['x'], []]).commands = [[]] := by
  refine ⟨?_, ?_, by decide, by decide, by decide⟩
  · intro hd
    exact processArg_after_divider st [] hd (by decide)
  · intro hd
    exact processArg_command st [] hd rfl

/-- Claim C10 witness: instantiation at a state with the divider already
seen. -/
theorem c10_witness :
    (⟨true, [], [], []⟩ : ParseState).pathDivider = true ∧
    processArg ⟨true, [], [], []⟩ []
      = { (⟨true, [], [], []⟩ : ParseState) with
          paths := (⟨true, [], [], []⟩ : ParseState).paths ++ [([] : RStr)] } :=
  ⟨rfl, (c10_empty_token ⟨true, [], [], []⟩).1 rfl⟩

end Argparser
